import Mathlib

/-!
Verification development for the content-acquisition pipeline of the
`clai` repository (`src/scraper.ts`, the variant with the
SearX → Google → DuckDuckGo → Wikipedia fallback chain, plus the
emergency-constructor variant for the emergency fallback).

Strings of the TypeScript code are modelled as `List Char`.  Network
responses, and the external markup parser (cheerio), are modelled as
oracles: an adapter is a function of the response data it would have
received, and an HTML document is modelled by the three values the
extractor queries from it (title text, body text, canonical href).
-/

abbrev Str := List Char

/-- Whitespace class of JavaScript regular expressions
(the characters matched by the regex class backslash-s). -/
def jsWhitespace (c : Char) : Bool :=
  [9, 10, 11, 12, 13, 32, 160, 0x1680, 0x2028, 0x2029,
   0x202F, 0x205F, 0x3000, 0xFEFF].contains c.toNat
  || (0x2000 ≤ c.toNat && c.toNat ≤ 0x200A)

/-- ASCII letter, as matched by the character class a-z under the
case-insensitive regex flag. -/
def asciiLetter (c : Char) : Bool :=
  (97 ≤ c.toNat && c.toNat ≤ 122) || (65 ≤ c.toNat && c.toNat ≤ 90)

/-- Model of JavaScript `String.prototype.startsWith`. -/
def startsWith : Str → Str → Bool
  | _, [] => true
  | [], _ :: _ => false
  | c :: cs, p :: ps => c = p && startsWith cs ps

/-- Model of JavaScript `String.prototype.includes` (substring test). -/
def containsStr : Str → Str → Bool
  | [], needle => startsWith [] needle
  | c :: t, needle => startsWith (c :: t) needle || containsStr t needle

theorem startsWith_append_self (p x : Str) : startsWith (p ++ x) p = true := by
  induction p with
  | nil => simp [startsWith]
  | cons c cs ih => simp [startsWith, ih]

theorem startsWith_of_startsWith_append {a : Str} (p : Str) (b : Str)
    (h : startsWith a p = true) : startsWith (a ++ b) p = true := by
  induction p generalizing a with
  | nil => simp [startsWith]
  | cons q qs ih =>
    cases a with
    | nil => simp [startsWith] at h
    | cons c cs =>
      simp [startsWith] at h ⊢
      exact ⟨h.1, ih h.2⟩

theorem length_le_of_startsWith {s p : Str} (h : startsWith s p = true) :
    p.length ≤ s.length := by
  induction p generalizing s with
  | nil => simp
  | cons q qs ih =>
    cases s with
    | nil => simp [startsWith] at h
    | cons c cs =>
      simp [startsWith] at h
      simpa using ih h.2

theorem containsStr_of_startsWith {hay needle : Str}
    (h : startsWith hay needle = true) : containsStr hay needle = true := by
  cases hay <;> simp [containsStr, h]

theorem containsStr_of_append_right (pre needle rest : Str) :
    containsStr (pre ++ (needle ++ rest)) needle = true := by
  induction pre with
  | nil =>
    rw [List.nil_append]
    exact containsStr_of_startsWith (startsWith_append_self needle rest)
  | cons c cs ih =>
    rw [List.cons_append, containsStr]
    simp [ih]

/-!
## Input classifier — `isValidUrl` (scraper.ts lines 207–214)

```ts
function isValidUrl(input: string): boolean {
  if (input.includes(' ')) return false
  const tldPattern = /^[^\s]+\.[a-z]{2,}$/i
  return tldPattern.test(input)
}
```

`tldTest` is the matching semantics of that anchored regex: the string
splits as a nonempty all-non-whitespace prefix, a literal dot, and a
suffix of two or more ASCII letters.  `tldAux hasPre l` decides whether
such a split exists inside `l`, where `hasPre` records that at least one
non-whitespace character has already been consumed into the prefix.
-/

def tldAux : Bool → Str → Bool
  | _, [] => false
  | hasPre, c :: rest =>
    (hasPre && c = '.' && decide (2 ≤ rest.length) && rest.all asciiLetter)
    || (!jsWhitespace c && tldAux true rest)

def tldTest (s : Str) : Bool := tldAux false s

def isValidUrl (input : Str) : Bool :=
  if input.contains ' ' then false
  else tldTest input

/-!
## URL normalization — `normalizeUrl` (scraper.ts lines 216–221)

```ts
function normalizeUrl(url: string): string {
  if (!url.startsWith('http://') && !url.startsWith('https://')) {
    return `https://${url}`
  }
  return url
}
```
-/

def httpPref : Str := "http://".data

def httpsPref : Str := "https://".data

def normalizeUrl (url : Str) : Str :=
  if !startsWith url httpPref && !startsWith url httpsPref then
    httpsPref ++ url
  else
    url

/-- Number of consecutive copies of the scheme string at the front of a
URL (how many times the scheme can be stripped off the front).  Used to
state that normalization prepends the scheme exactly once. -/
def httpsRepeats (u : Str) : Nat :=
  if h : startsWith u httpsPref = true then
    have hle : httpsPref.length ≤ u.length := length_le_of_startsWith h
    have h8 : httpsPref.length = 8 := rfl
    have : (u.drop 8).length < u.length := by
      simp only [List.length_drop]
      omega
    httpsRepeats (u.drop 8) + 1
  else 0
  termination_by u.length

/-!
## Provider adapters (scraper.ts lines 245–442)

Network responses are oracles.  `none` at a response position models the
underlying fetch (or JSON decoding) throwing; a JSON string field that
JavaScript treats as falsy when absent or empty is modelled as a `Str`
that is falsy exactly when it is `[]`.
-/

/-- One entry of a SearX JSON `results` array; only its `url` field is
read by the adapter. -/
structure SearxResult where
  url : Str
  deriving DecidableEq

/-- A SearX instance response: HTTP `ok` flag and the optional
`results` array of the decoded JSON body. -/
structure SearxResponse where
  ok : Bool
  results : Option (List SearxResult)
  deriving DecidableEq

/-- The URL-collection loop of `getSearXResults` (lines 270–284): walk
the first five results, keeping a `url` that is truthy, starts with a
scheme, is not a Wikipedia link and is not already collected. -/
def searxCollect (rs : List SearxResult) : List Str :=
  (rs.take 5).foldl
    (fun urls r =>
      if r.url ≠ [] &&
          (startsWith r.url httpPref || startsWith r.url httpsPref) &&
          !containsStr r.url "wikipedia.org".data &&
          !urls.contains r.url then
        urls ++ [r.url]
      else urls)
    []

/-- Adapter `getSearXResults` (lines 245–295): try each instance response in
order; a thrown fetch, a non-OK response or an empty filtered list moves
on to the next instance; a nonempty filtered list is returned truncated
to three entries; exhausting all instances is adapter failure (`none`). -/
def getSearXResults : List (Option SearxResponse) → Option (List Str)
  | [] => none
  | none :: rest => getSearXResults rest
  | some resp :: rest =>
    if !resp.ok then getSearXResults rest
    else
      match resp.results with
      | none => getSearXResults rest
      | some rs =>
        let urls := searxCollect rs
        if urls.length > 0 then some (urls.take 3) else getSearXResults rest

/-- A Wikipedia OpenSearch response: HTTP `ok` flag and, when the body
has the documented shape (an array of length at least 4 whose fourth
element is an array of strings), that fourth element. -/
structure WikiResponse where
  ok : Bool
  third : Option (List Str)
  deriving DecidableEq

/-- Adapter `getWikipediaResults` (lines 297–325): fail on a thrown fetch or a
non-OK status; otherwise keep the `https://` entries of the fourth
element; success requires at least one such entry.  The request URL
carries `limit=3`, but no client-side cap is applied to the response. -/
def getWikipediaResults (resp : Option WikiResponse) : Option (List Str) :=
  match resp with
  | none => none
  | some r =>
    if !r.ok then none
    else
      match r.third with
      | none => none
      | some urls3 =>
        let urls := urls3.filter (fun u => startsWith u httpsPref)
        if urls.length > 0 then some urls else none

/-- The Wikipedia OpenSearch request URL built at lines 299–301. -/
def wikipediaSearchUrlSuffix : Str := "&limit=3&format=json&origin=*".data

/-- Failure modes of the Google adapter: the page fetch threw, the page
was recognized as a block page, or no result URL was extracted. -/
inductive GoogleFail
  | fetchFailed
  | blocked
  | noResults
  deriving DecidableEq

/-- First block-page phrase tested at line 337 (the apostrophe is the
ASCII character 0x27). -/
def googleBlockedPhrase1 : Str :=
  "If you".data ++ '\x27' :: "re having trouble accessing Google Search".data

/-- Second block-page phrase tested at line 338. -/
def googleBlockedPhrase2 : Str :=
  "unusual traffic from your computer network".data

/-- JavaScript `[...new Set(xs)]`: drop duplicates, keeping the first
occurrence of each element in order. -/
def jsSetDedup (seen : List Str) : List Str → List Str
  | [] => []
  | x :: xs =>
    if seen.contains x then jsSetDedup seen xs
    else x :: jsSetDedup (x :: seen) xs

/-- Adapter `getGoogleResults` (lines 327–392).  The fetched page is an oracle
(`none` models `fetchHtml` throwing, whose error propagates).  The two
cheerio link-extraction passes over the parsed document are modelled by
the oracle `parseUrls`, a function of the raw markup; block detection
runs on the raw markup before any parsing.  The extracted list is
deduplicated, truncated to three entries, and must be nonempty. -/
def getGoogleResults (fetched : Option Str) (parseUrls : Str → List Str) :
    Except GoogleFail (List Str) :=
  match fetched with
  | none => .error .fetchFailed
  | some html =>
    if containsStr html googleBlockedPhrase1 ||
        containsStr html googleBlockedPhrase2 then
      .error .blocked
    else
      let uniqueUrls := (jsSetDedup [] (parseUrls html)).take 3
      if uniqueUrls.length = 0 then .error .noResults else .ok uniqueUrls

/-- One entry of the DuckDuckGo `RelatedTopics` array; only `FirstURL`
is read (falsy when `[]`). -/
structure DdgTopic where
  firstUrl : Str
  deriving DecidableEq

/-- The fields of the DuckDuckGo instant-answer JSON body read by the
adapter.  `abstractField`/`abstractText` are `none` when absent (the
code reads them through optional chaining). -/
structure DdgData where
  abstractField : Option Str
  abstractText : Option Str
  abstractUrl : Str
  relatedTopics : Option (List DdgTopic)
  definitionUrl : Str
  deriving DecidableEq

/-- A DuckDuckGo API response: HTTP `ok` flag and decoded body. -/
structure DdgResponse where
  ok : Bool
  data : DdgData
  deriving DecidableEq

/-- Failure modes of the DuckDuckGo adapter. -/
inductive DdgFail
  | fetchFailed
  | httpError
  | blocked
  | noResults
  deriving DecidableEq

/-- First DuckDuckGo soft-block phrase tested at lines 410–413. -/
def ddgBlockedPhrase1 : Str := "redirects users to a non-JavaScript site".data

/-- Second DuckDuckGo soft-block phrase tested at lines 411–414. -/
def ddgBlockedPhrase2 : Str := "DuckDuckGo redirects users".data

/-- Truthiness of an optional string field combined with a substring
test `field?.includes(phrase)`. -/
def optIncludes (field : Option Str) (phrase : Str) : Bool :=
  match field with
  | none => false
  | some s => containsStr s phrase

/-- The `urls` array after the push of the truthy abstract URL
(lines 420–422). -/
def ddgUrls0 (d : DdgData) : List Str :=
  if d.abstractUrl ≠ [] then [d.abstractUrl] else []

/-- The `urls` array after also pushing the truthy first URLs of the
first two related topics (lines 424–430). -/
def ddgUrls1 (d : DdgData) : List Str :=
  match d.relatedTopics with
  | none => ddgUrls0 d
  | some topics =>
    ddgUrls0 d ++ ((topics.take 2).filter (fun t => t.firstUrl ≠ [])).map
      (fun t => t.firstUrl)

/-- The final `urls` array (lines 418–435): when nothing was collected,
a truthy `DefinitionURL` is pushed as last resort. -/
def ddgUrls (d : DdgData) : List Str :=
  if (ddgUrls1 d).length = 0 && d.definitionUrl ≠ [] then
    ddgUrls1 d ++ [d.definitionUrl]
  else ddgUrls1 d

/-- Adapter `getDuckDuckGoResults` (lines 394–442): fail on thrown fetch, non-OK
status, or a recognized soft-block abstract; otherwise the collected
`ddgUrls`, an empty collection being failure. -/
def getDuckDuckGoResults (resp : Option DdgResponse) :
    Except DdgFail (List Str) :=
  match resp with
  | none => .error .fetchFailed
  | some r =>
    if !r.ok then .error .httpError
    else if optIncludes r.data.abstractField ddgBlockedPhrase1 ||
        optIncludes r.data.abstractField ddgBlockedPhrase2 ||
        optIncludes r.data.abstractText ddgBlockedPhrase1 ||
        optIncludes r.data.abstractText ddgBlockedPhrase2 then
      .error .blocked
    else if (ddgUrls r.data).length = 0 then .error .noResults
    else .ok (ddgUrls r.data)

/-!
## Fallback orchestrator — `getSearchResults` (scraper.ts lines 223–243)

```ts
const searchEngines = [
  { name: 'SearX', fn: getSearXResults },
  { name: 'Google', fn: getGoogleResults },
  { name: 'DuckDuckGo', fn: getDuckDuckGoResults },
  { name: 'Wikipedia', fn: getWikipediaResults },
]
for (const engine of searchEngines) {
  try { return await engine.fn(query) } catch (_) { }
}
throw new Error('No search results available')
```
-/

/-- All network and parser inputs one acquisition call can observe: one
response oracle per adapter of the fixed chain. -/
structure SearchWorld where
  searxResponses : List (Option SearxResponse)
  googleFetched : Option Str
  googleParse : Str → List Str
  ddgResponse : Option DdgResponse
  wikiResponse : Option WikiResponse

/-- Outcome of each adapter of the fixed chain, in the priority order of
the `searchEngines` list (SearX, Google, DuckDuckGo, Wikipedia); `none`
is a thrown adapter error. -/
def adapterOutcomes (w : SearchWorld) : List (Option (List Str)) :=
  [getSearXResults w.searxResponses,
   (getGoogleResults w.googleFetched w.googleParse).toOption,
   (getDuckDuckGoResults w.ddgResponse).toOption,
   getWikipediaResults w.wikiResponse]

/-- The first-success loop body: return the first adapter outcome that
did not throw, or fail when every adapter threw. -/
def firstSuccess : List (Option (List Str)) → Option (List Str)
  | [] => none
  | some r :: _ => some r
  | none :: rest => firstSuccess rest

/-- How many engines the loop invokes: every engine up to and including
the first successful one, or all of them when every one fails. -/
def triedCount : List (Option (List Str)) → Nat
  | [] => 0
  | some _ :: _ => 1
  | none :: rest => triedCount rest + 1

/-- Orchestrator `getSearchResults` (lines 223–243), as a function of the observable
world; `none` is the final `throw`. -/
def getSearchResults (w : SearchWorld) : Option (List Str) :=
  firstSuccess (adapterOutcomes w)

/-!
## HTML extractor and concurrent fetch stage (scraper.ts lines 183–198
and 555–562)

The markup parser is the external collaborator of spec §6; a fetched
document is modelled by the three values `extractDataFromHtml` queries
from it.
-/

/-- The three values the extractor reads from a parsed document: the
`title` text, the `body` text, and the `href` of a
`link[rel="canonical"]` element when present. -/
structure HtmlDoc where
  titleText : Str
  bodyText : Str
  canonicalHref : Option Str
  deriving DecidableEq

/-- The record type of the pipeline output (`ScrapedData`). -/
structure ScrapedData where
  title : Str
  content : Str
  url : Str
  deriving DecidableEq

/-- Extractor `extractDataFromHtml` (lines 555–562): title text, body text, and
canonical href defaulted to the empty string (`.attr() || ''`). -/
def extractDataFromHtml (doc : HtmlDoc) : ScrapedData :=
  { title := doc.titleText
    content := doc.bodyText
    url := doc.canonicalHref.getD [] }

/-- One fetch-and-extract task of the `urls.map` at lines 185–194: fetch
the URL (oracle `fetchO`, `none` models a throw caught by the per-URL
handler), extract, and overwrite the record's `url` field with the
fetched URL (`{ ...data, url }`). -/
def fetchTask (fetchO : Str → Option HtmlDoc) (url : Str) :
    Option ScrapedData :=
  (fetchO url).map (fun doc => { extractDataFromHtml doc with url := url })

/-- The fetch stage (lines 183–198): `Promise.all` over the per-URL
tasks — whose resolved array lists each task's value at the index of its
URL — followed by the non-null filter. -/
def fetchStage (fetchO : Str → Option HtmlDoc) (urls : List Str) :
    List ScrapedData :=
  (urls.map (fetchTask fetchO)).filterMap id

/-- Pipeline `scrape` (lines 173–203): classify the input, search when it is not
a URL, fetch all candidates; the outer catch turns a search-stage throw
into the empty list. -/
def scrape (w : SearchWorld) (fetchO : Str → Option HtmlDoc)
    (input : Str) : List ScrapedData :=
  match
    (if isValidUrl input then some [normalizeUrl input]
     else getSearchResults w) with
  | none => []
  | some urls => fetchStage fetchO urls

/-!
## Emergency constructor — `getEmergencyResults`
(scraper.ts lines 640–680, the variant whose fallback chain ends in the
emergency constructor)

```ts
const cleanQuery = query.toLowerCase().replace(/[^a-z0-9\s]/g, "").trim();
const words = cleanQuery.split(/\s+/).filter((word) => word.length > 2);
...
```

`toLowerCase` is modelled on its ASCII behavior (`Char.toLower`); the
removed class `[^a-z0-9\s]` makes every non-ASCII letter disappear from
`cleanQuery` either way.  JavaScript `split(/\s+/)` on a trimmed string
yields the nonempty whitespace-separated tokens, except that the empty
string yields one empty token — which the `length > 2` filter discards,
so `splitWs` (which drops empty tokens) composes to the same `words`.
-/

/-- Characters kept by the deletion of the class `[^a-z0-9\s]` from an
already lower-cased string. -/
def emergencyKeep (c : Char) : Bool :=
  (97 ≤ c.toNat && c.toNat ≤ 122) || (48 ≤ c.toNat && c.toNat ≤ 57)
    || jsWhitespace c

/-- ASCII model of `String.prototype.toLowerCase`. -/
def jsToLower (s : Str) : Str := s.map Char.toLower

/-- Model of `String.prototype.trim`: strip JavaScript whitespace from
both ends. -/
def jsTrim (s : Str) : Str :=
  ((s.dropWhile jsWhitespace).reverse.dropWhile jsWhitespace).reverse

/-- Helper of `splitWs`: `cur` is the reversed current token. -/
def splitWsAux (cur : Str) : Str → List Str
  | [] => if cur = [] then [] else [cur.reverse]
  | c :: cs =>
    if jsWhitespace c then
      if cur = [] then splitWsAux [] cs
      else cur.reverse :: splitWsAux [] cs
    else splitWsAux (c :: cur) cs

/-- Model of `split(/\s+/)` up to empty tokens: the nonempty maximal runs of
non-whitespace characters, in order. -/
def splitWs (s : Str) : List Str := splitWsAux [] s

/-- UTF-8 encoding of a code point, as the list of its byte values. -/
def utf8Bytes (n : Nat) : List Nat :=
  if n < 0x80 then [n]
  else if n < 0x800 then [0xC0 + n / 64, 0x80 + n % 64]
  else if n < 0x10000 then
    [0xE0 + n / 4096, 0x80 + (n / 64) % 64, 0x80 + n % 64]
  else
    [0xF0 + n / 262144, 0x80 + (n / 4096) % 64, 0x80 + (n / 64) % 64,
     0x80 + n % 64]

/-- Upper-case hexadecimal digit of a value below 16. -/
def hexDigit (n : Nat) : Char :=
  if n < 10 then Char.ofNat (48 + n) else Char.ofNat (55 + n)

/-- The characters `encodeURIComponent` leaves unescaped. -/
def uriUnescaped (c : Char) : Bool :=
  asciiLetter c || (48 ≤ c.toNat && c.toNat ≤ 57) ||
    ['-', '_', '.', '!', '~', '*', '\x27', '(', ')'].contains c

/-- Model of `encodeURIComponent`: unescaped characters pass through,
every other character becomes the percent-escapes of its UTF-8 bytes. -/
def encodeURIComponent (s : Str) : Str :=
  s.flatMap (fun c =>
    if uriUnescaped c then [c]
    else (utf8Bytes c.toNat).flatMap
      (fun b => ['%', hexDigit (b / 16), hexDigit (b % 16)]))

/-- Helper of `replaceWsRuns`: the flag records whether the previous
character was whitespace (its run already replaced). -/
def wsRunsAux : Bool → Str → Str
  | _, [] => []
  | prevWs, c :: cs =>
    if jsWhitespace c then
      if prevWs then wsRunsAux true cs
      else '_' :: wsRunsAux true cs
    else c :: wsRunsAux false cs

/-- Model of `query.replace(/\s+/g, "_")`: each maximal whitespace run
becomes one underscore. -/
def replaceWsRuns (s : Str) : Str := wsRunsAux false s

/-- The Wikipedia article guess pushed at lines 655–659 and used again
as the final fallback at lines 675–679. -/
def emergencyWikiUrl (query : Str) : Str :=
  "https://en.wikipedia.org/wiki/".data ++
    encodeURIComponent (replaceWsRuns query)

/-- The `words` array of line 649: the lower-cased, alphanumeric-
filtered, trimmed tokens of length above 2. -/
def emergencyWords (query : Str) : List Str :=
  (splitWs (jsTrim ((jsToLower query).filter emergencyKeep))).filter
    (fun w => w.length > 2)

/-- The `results` array after the pushes of lines 651–670. -/
def emergencyCandidates (query : Str) : List Str :=
  if (emergencyWords query).length > 0 then
    [emergencyWikiUrl query] ++
      (if ((emergencyWords query).headD []).length > 3 then
        [httpsPref ++ ((emergencyWords query).headD [] ++ ".com".data),
         "https://www.".data ++
           ((emergencyWords query).headD [] ++ ".org".data)]
      else []) ++
      ["https://www.reddit.com/search/?q=".data ++
        encodeURIComponent query]
  else []

/-- Constructor `getEmergencyResults` (lines 640–680): a pure function of the query
— no network call — returning the first three candidates, or the
encyclopedia guess alone when no token survives the filter. -/
def getEmergencyResults (query : Str) : List Str :=
  if (emergencyCandidates query).length > 0 then
    (emergencyCandidates query).take 3
  else [emergencyWikiUrl query]

/-!
## Settlement-order model of the fetch stage

`Promise.all` starts one task per URL; the tasks settle in an arbitrary
interleaving order.  A schedule is the list of task indices in
settlement order; each settling task writes its value into its own slot
of the result array, and `Promise.all` resolves — once every slot is
written — with the slots read in index order.
-/

/-- Run the fetch tasks of `urls` against a settlement schedule: start
from unsettled slots and let each index of `order` write its task's
value into its own slot. -/
def runSchedule (fetchO : Str → Option HtmlDoc) (urls : List Str)
    (order : List Nat) : List (Option (Option ScrapedData)) :=
  order.foldl
    (fun slots i => slots.set i (some (fetchTask fetchO (urls.getD i []))))
    (List.replicate urls.length none)

/-- The value `Promise.all` resolves with: defined only when every slot
has settled, and then the slots in index order. -/
def promiseAllResolved (fetchO : Str → Option HtmlDoc) (urls : List Str)
    (order : List Nat) : Option (List (Option ScrapedData)) :=
  if (runSchedule fetchO urls order).all (fun s => s.isSome) then
    some ((runSchedule fetchO urls order).map (fun s => s.getD none))
  else none

/-!
## Theorems
-/

theorem asciiLetter_not_ws {c : Char} (h : asciiLetter c = true) :
    jsWhitespace c = false := by
  simp [asciiLetter] at h
  simp [jsWhitespace]
  omega

theorem tldAux_no_ws {l : Str} {b : Bool} (h : tldAux b l = true) :
    ∀ c ∈ l, jsWhitespace c = false := by
  induction l generalizing b with
  | nil => intro c hc; simp at hc
  | cons d rest ih =>
    intro c hc
    rw [tldAux, Bool.or_eq_true] at h
    rcases h with h | h
    · simp only [Bool.and_eq_true, decide_eq_true_eq] at h
      obtain ⟨⟨⟨_, hd⟩, _⟩, hall⟩ := h
      rcases List.mem_cons.mp hc with hcd | hcr
      · subst hcd; rw [hd]; decide
      · exact asciiLetter_not_ws (by simpa using List.all_eq_true.mp hall c hcr)
    · simp only [Bool.and_eq_true, Bool.not_eq_true'] at h
      rcases List.mem_cons.mp hc with hcd | hcr
      · subst hcd; exact h.1
      · exact ih h.2 c hcr

/-- C6: an input containing whitespace is never classified as a URL,
and an input is classified as a URL exactly when it contains no
whitespace and matches the minimal domain-shape pattern (a non-space
sequence, a dot, and two or more letters). -/
theorem classification_url_iff (input : Str) :
    ((∃ c ∈ input, jsWhitespace c = true) → isValidUrl input = false)
    ∧ (isValidUrl input = true ↔
        ((∀ c ∈ input, jsWhitespace c = false) ∧ tldTest input = true)) := by
  constructor
  · rintro ⟨c, hc, hw⟩
    rw [isValidUrl]
    split
    · rfl
    · cases ht : tldTest input
      · rfl
      · have := tldAux_no_ws (l := input) (b := false) ht c hc
        rw [this] at hw
        exact absurd hw (by simp)
  · constructor
    · intro h
      rw [isValidUrl] at h
      split at h
      · exact absurd h (by simp)
      · exact ⟨tldAux_no_ws (b := false) h, h⟩
    · rintro ⟨hnws, ht⟩
      rw [isValidUrl]
      split
      · rename_i hsp
        have hmem : ' ' ∈ input := by
          rcases List.contains_iff_exists_mem_beq.mp hsp with ⟨a, ha, hba⟩
          have heq : ' ' = a := beq_iff_eq.mp hba
          rw [heq]
          exact ha
        have := hnws ' ' hmem
        exact absurd this (by decide)
      · exact ht

/-- Witness for C6 at the concrete input `"hello world"`. -/
theorem classification_url_iff_witness :
    isValidUrl "hello world".data = false :=
  (classification_url_iff "hello world".data).1 ⟨' ', by decide, by decide⟩

theorem httpsRepeats_append (u : Str) :
    httpsRepeats (httpsPref ++ u) = httpsRepeats u + 1 := by
  rw [httpsRepeats]
  split
  · have hdrop : (httpsPref ++ u).drop 8 = u := by
      have h8 : (8 : Nat) = httpsPref.length := rfl
      rw [h8, List.drop_left]
    simp only [hdrop]
  · rename_i h
    exact absurd (startsWith_append_self httpsPref u) h

theorem httpsRepeats_of_not {u : Str} (h : startsWith u httpsPref = false) :
    httpsRepeats u = 0 := by
  rw [httpsRepeats]
  split
  · rename_i h'
    rw [h'] at h
    exact absurd h (by simp)
  · rfl

/-- C7: on a string with neither scheme, normalization prepends the
`https://` scheme exactly once (the scheme is strippable exactly once
from the result), and normalization is idempotent on every string. -/
theorem normalize_https_once_idem (u : Str)
    (h1 : startsWith u httpPref = false)
    (h2 : startsWith u httpsPref = false) :
    normalizeUrl u = httpsPref ++ u
    ∧ httpsRepeats (normalizeUrl u) = 1
    ∧ ∀ v, normalizeUrl (normalizeUrl v) = normalizeUrl v := by
  have hnorm : normalizeUrl u = httpsPref ++ u := by
    rw [normalizeUrl, h1, h2]
    simp
  refine ⟨hnorm, ?_, ?_⟩
  · rw [hnorm, httpsRepeats_append, httpsRepeats_of_not h2]
  · intro v
    by_cases hv : (!startsWith v httpPref && !startsWith v httpsPref) = true
    · have hn : normalizeUrl v = httpsPref ++ v := by
        rw [normalizeUrl, if_pos hv]
      rw [hn, normalizeUrl]
      have hsw : startsWith (httpsPref ++ v) httpsPref = true :=
        startsWith_append_self httpsPref v
      rw [hsw]
      simp
    · have hn : normalizeUrl v = v := by
        rw [normalizeUrl, if_neg hv]
      rw [hn, hn]

/-- Witness for C7 at the concrete input `"example.com"`. -/
theorem normalize_https_once_idem_witness :
    normalizeUrl "example.com".data = httpsPref ++ "example.com".data
    ∧ httpsRepeats (normalizeUrl "example.com".data) = 1
    ∧ ∀ v, normalizeUrl (normalizeUrl v) = normalizeUrl v :=
  normalize_https_once_idem "example.com".data (by decide) (by decide)

theorem firstSuccess_at {outcomes : List (Option (List Str))} {k : Nat}
    {r : List Str} (hsucc : outcomes[k]? = some (some r))
    (hfail : ∀ j, j < k → outcomes[j]? = some none) :
    firstSuccess outcomes = some r ∧ triedCount outcomes = k + 1 := by
  induction outcomes generalizing k with
  | nil => simp at hsucc
  | cons o rest ih =>
    cases k with
    | zero =>
      simp at hsucc
      subst hsucc
      exact ⟨rfl, rfl⟩
    | succ k =>
      have h0 : o = none := by
        have := hfail 0 (Nat.succ_pos k)
        simpa using this
      subst h0
      have hs : rest[k]? = some (some r) := by simpa using hsucc
      have hf : ∀ j, j < k → rest[j]? = some none := by
        intro j hj
        have := hfail (j + 1) (by omega)
        simpa using this
      obtain ⟨ha, hb⟩ := ih hs hf
      refine ⟨ha, ?_⟩
      rw [triedCount, hb]

/-- C2: if adapter k of the fixed priority chain (SearX, Google,
DuckDuckGo, Wikipedia) succeeds while every adapter before it fails,
the orchestrator returns exactly adapter k's candidate list — no
merging — and invokes exactly the first k+1 adapters, none after k. -/
theorem orchestrator_first_success (w : SearchWorld) (k : Nat)
    (r : List Str) (hsucc : (adapterOutcomes w)[k]? = some (some r))
    (hfail : ∀ j, j < k → (adapterOutcomes w)[j]? = some none) :
    getSearchResults w = some r
    ∧ triedCount (adapterOutcomes w) = k + 1 :=
  firstSuccess_at hsucc hfail

/-- A concrete world for the C2 witness: the SearX adapter fails (no
reachable instance), the Google adapter succeeds with one parsed URL. -/
def c2World : SearchWorld :=
  { searxResponses := [none, none]
    googleFetched := some "plain results page".data
    googleParse := fun _ => ["https://a.example".data]
    ddgResponse := none
    wikiResponse := none }

/-- Witness for C2: in `c2World` adapter 1 (Google) wins, exactly two
adapters are invoked. -/
theorem orchestrator_first_success_witness :
    getSearchResults c2World = some ["https://a.example".data]
    ∧ triedCount (adapterOutcomes c2World) = 2 :=
  orchestrator_first_success c2World 1 ["https://a.example".data]
    (by decide)
    (fun j hj => by
      have hj0 : j = 0 := by omega
      subst hj0
      decide)

theorem firstSuccess_all_none {l : List (Option (List Str))}
    (h : ∀ o ∈ l, o = none) : firstSuccess l = none := by
  induction l with
  | nil => rfl
  | cons o rest ih =>
    have ho := h o (List.mem_cons_self o rest)
    subst ho
    rw [firstSuccess]
    exact ih (fun o ho => h o (List.mem_cons_of_mem _ ho))

theorem fetchStage_all_none {f : Str → Option HtmlDoc}
    (hf : ∀ u, f u = none) (urls : List Str) : fetchStage f urls = [] := by
  induction urls with
  | nil => rfl
  | cons u us ih =>
    rw [fetchStage, List.map_cons, List.filterMap_cons]
    have : fetchTask f u = none := by rw [fetchTask, hf u]; rfl
    rw [this]
    exact ih

/-- C1: `scrape` never rejects on total failure — when the input is
classified as a search query and every adapter of the chain fails, and
likewise when every per-URL fetch fails, it returns the empty list. -/
theorem scrape_never_rejects (w : SearchWorld)
    (fetchO : Str → Option HtmlDoc) (input : Str) :
    (isValidUrl input = false → (∀ o ∈ adapterOutcomes w, o = none) →
      scrape w fetchO input = [])
    ∧ ((∀ u, fetchO u = none) → scrape w fetchO input = []) := by
  constructor
  · intro hcls hall
    rw [scrape, if_neg (by rw [hcls]; simp)]
    rw [getSearchResults, firstSuccess_all_none hall]
  · intro hf
    rw [scrape]
    cases hm : (if isValidUrl input then some [normalizeUrl input]
        else getSearchResults w) with
    | none => rfl
    | some urls => exact fetchStage_all_none hf urls

/-- Witness for C1: the query `"a b"` with every adapter and every
fetch failing yields the empty list, twice over. -/
theorem scrape_never_rejects_witness :
    scrape ⟨[], none, fun _ => [], none, none⟩ (fun _ => none) "a b".data
      = []
    ∧ scrape ⟨[], none, fun _ => [], none, none⟩ (fun _ => none) "a b".data
      = [] :=
  ⟨(scrape_never_rejects ⟨[], none, fun _ => [], none, none⟩
      (fun _ => none) "a b".data).1 (by decide) (by decide),
   (scrape_never_rejects ⟨[], none, fun _ => [], none, none⟩
      (fun _ => none) "a b".data).2 (fun _ => rfl)⟩

theorem fetchTask_none {f : Str → Option HtmlDoc} {u : Str}
    (h : f u = none) : fetchTask f u = none := by
  rw [fetchTask, h]
  rfl

theorem fetchTask_some {f : Str → Option HtmlDoc} {u : Str} {d : HtmlDoc}
    (h : f u = some d) :
    fetchTask f u = some { extractDataFromHtml d with url := u } := by
  rw [fetchTask, h]
  rfl

theorem fetchTask_url {f : Str → Option HtmlDoc} {u : Str}
    {r : ScrapedData} (h : fetchTask f u = some r) : r.url = u := by
  cases hd : f u with
  | none => rw [fetchTask_none hd] at h; simp at h
  | some d =>
    rw [fetchTask_some hd] at h
    have hr : { extractDataFromHtml d with url := u } = r :=
      Option.some.inj h
    rw [← hr]

theorem fetchStage_cons_none {f : Str → Option HtmlDoc} {u : Str}
    (us : List Str) (h : f u = none) :
    fetchStage f (u :: us) = fetchStage f us := by
  rw [fetchStage, List.map_cons, fetchTask_none h, List.filterMap_cons]
  rfl

theorem fetchStage_cons_some {f : Str → Option HtmlDoc} {u : Str}
    {d : HtmlDoc} (us : List Str) (h : f u = some d) :
    fetchStage f (u :: us)
      = { extractDataFromHtml d with url := u } :: fetchStage f us := by
  rw [fetchStage, List.map_cons, fetchTask_some h, List.filterMap_cons]
  rfl

theorem fetchStage_map_url (f : Str → Option HtmlDoc) (urls : List Str) :
    (fetchStage f urls).map (fun r => r.url)
      = urls.filter (fun u => (f u).isSome) := by
  induction urls with
  | nil => rfl
  | cons u us ih =>
    rw [List.filter_cons]
    cases hd : f u with
    | none =>
      rw [fetchStage_cons_none us hd]
      simp only [hd, Option.isSome_none, Bool.false_eq_true, if_false]
      exact ih
    | some d =>
      rw [fetchStage_cons_some us hd]
      simp only [hd, Option.isSome_some, if_true, List.map_cons]
      exact congrArg (List.cons u) ih

theorem fetchStage_length (f : Str → Option HtmlDoc) (urls : List Str) :
    (fetchStage f urls).length
      + (urls.filter (fun u => (f u).isNone)).length = urls.length := by
  induction urls with
  | nil => rfl
  | cons u us ih =>
    rw [List.filter_cons]
    cases hd : f u with
    | none =>
      rw [fetchStage_cons_none us hd]
      simp only [hd, Option.isNone_none, if_true, List.length_cons]
      omega
    | some d =>
      rw [fetchStage_cons_some us hd]
      simp only [hd, Option.isNone_some, Bool.false_eq_true, if_false,
        List.length_cons]
      omega

/-- C3: with N candidate URLs of which exactly M fail, the fetch stage
returns exactly N−M records; their `url` fields are exactly the
successful URLs, pairwise distinct — one record per distinct successful
URL, whichever subset failed, with no failure aborting the batch. -/
theorem fetch_stage_partial_failure (f : Str → Option HtmlDoc)
    (urls : List Str) (M : Nat) (hnd : urls.Nodup)
    (hM : (urls.filter (fun u => (f u).isNone)).length = M)
    (hMN : M < urls.length) :
    (fetchStage f urls).length = urls.length - M
    ∧ (fetchStage f urls).map (fun r => r.url)
        = urls.filter (fun u => (f u).isSome)
    ∧ ((fetchStage f urls).map (fun r => r.url)).Nodup := by
  refine ⟨?_, fetchStage_map_url f urls, ?_⟩
  · have := fetchStage_length f urls
    omega
  · rw [fetchStage_map_url]
    exact hnd.filter _

/-- Concrete fetched document for witnesses. -/
def c3doc : HtmlDoc := ⟨"t".data, "c".data, none⟩

/-- Concrete candidate list for the C3 witness. -/
def c3urls : List Str :=
  ["https://a.xx".data, "https://b.xx".data, "https://c.xx".data]

/-- Concrete fetch oracle for the C3 witness: the second URL fails. -/
def c3fetch : Str → Option HtmlDoc :=
  fun u => if u = "https://b.xx".data then none else some c3doc

/-- Witness for C3: three URLs, the middle one failing, give two
records for the first and third URL. -/
theorem fetch_stage_partial_failure_witness :
    (fetchStage c3fetch c3urls).length = c3urls.length - 1
    ∧ (fetchStage c3fetch c3urls).map (fun r => r.url)
        = c3urls.filter (fun u => (c3fetch u).isSome)
    ∧ ((fetchStage c3fetch c3urls).map (fun r => r.url)).Nodup :=
  fetch_stage_partial_failure c3fetch c3urls 1 (by decide) (by decide)
    (by decide)

theorem getElem?_set_pointwise {α : Type} (l : List α) (i j : Nat) (a : α) :
    (l.set i a)[j]? = if i = j ∧ j < l.length then some a else l[j]? := by
  induction l generalizing i j with
  | nil => simp
  | cons x xs ih =>
    cases i with
    | zero =>
      cases j with
      | zero => simp
      | succ j => simp
    | succ i =>
      cases j with
      | zero => simp
      | succ j =>
        rw [List.set_cons_succ, List.getElem?_cons_succ,
          List.getElem?_cons_succ, ih]
        by_cases h : i = j ∧ j < xs.length
        · rw [if_pos h, if_pos ⟨by omega, by simp; omega⟩]
        · rw [if_neg h, if_neg (by simp; omega)]

theorem foldl_settle_getElem? (task : Nat → Option ScrapedData)
    (order : List Nat) (slots : List (Option (Option ScrapedData)))
    (i : Nat) :
    (order.foldl (fun s j => s.set j (some (task j))) slots)[i]?
      = if i ∈ order ∧ i < slots.length then some (some (task i))
        else slots[i]? := by
  induction order generalizing slots with
  | nil => simp
  | cons j os ih =>
    rw [List.foldl_cons, ih, List.length_set]
    by_cases h1 : i ∈ os ∧ i < slots.length
    · rw [if_pos h1, if_pos ⟨List.mem_cons_of_mem _ h1.1, h1.2⟩]
    · rw [if_neg h1, getElem?_set_pointwise]
      by_cases h2 : j = i ∧ i < slots.length
      · rw [if_pos h2, h2.1,
          if_pos ⟨by rw [← h2.1]; exact List.mem_cons_self j os, h2.2⟩]
      · rw [if_neg h2, if_neg ?_]
        rintro ⟨hm, hlt⟩
        rcases List.mem_cons.mp hm with hij | hos
        · exact h2 ⟨hij.symm, hlt⟩
        · exact h1 ⟨hos, hlt⟩

theorem runSchedule_eq (f : Str → Option HtmlDoc) (urls : List Str)
    (order : List Nat) (hperm : order.Perm (List.range urls.length)) :
    runSchedule f urls order
      = urls.map (fun u => some (fetchTask f u)) := by
  apply List.ext_getElem?
  intro i
  rw [runSchedule, foldl_settle_getElem?, List.length_replicate]
  have hmem : i ∈ order ↔ i < urls.length := by
    rw [hperm.mem_iff, List.mem_range]
  by_cases h : i < urls.length
  · rw [if_pos ⟨hmem.mpr h, h⟩, List.getElem?_map,
      List.getElem?_eq_getElem h]
    have hgd : urls.getD i [] = urls[i] := List.getD_eq_getElem urls [] h
    rw [hgd]
    rfl
  · rw [if_neg (by omega), List.getElem?_eq_none (by simpa using h),
      List.getElem?_eq_none (by simp; omega)]

theorem promiseAll_resolves (f : Str → Option HtmlDoc) (urls : List Str)
    (order : List Nat) (hperm : order.Perm (List.range urls.length)) :
    promiseAllResolved f urls order = some (urls.map (fetchTask f)) := by
  rw [promiseAllResolved, runSchedule_eq f urls order hperm]
  rw [if_pos (by simp)]
  rw [List.map_map]
  rfl

/-- C10: however the per-URL fetches settle (any permutation of the
task indices as settlement order), the resolved array lists each task's
value at the index of its URL, so the surviving records keep the
relative order of their URLs in the input list. -/
theorem fetch_results_preserve_input_order (f : Str → Option HtmlDoc)
    (urls : List Str) (order : List Nat)
    (hperm : order.Perm (List.range urls.length)) :
    promiseAllResolved f urls order = some (urls.map (fetchTask f))
    ∧ (urls.map (fetchTask f)).filterMap id = fetchStage f urls
    ∧ List.Sublist ((fetchStage f urls).map (fun r => r.url)) urls := by
  refine ⟨promiseAll_resolves f urls order hperm, rfl, ?_⟩
  rw [fetchStage_map_url]
  exact List.filter_sublist urls

/-- Witness for C10: two URLs settling in reverse order still yield the
records in input order. -/
theorem fetch_results_preserve_input_order_witness :
    promiseAllResolved c3fetch c3urls [2, 0, 1]
      = some (c3urls.map (fetchTask c3fetch))
    ∧ (c3urls.map (fetchTask c3fetch)).filterMap id
        = fetchStage c3fetch c3urls
    ∧ List.Sublist ((fetchStage c3fetch c3urls).map (fun r => r.url)) c3urls :=
  fetch_results_preserve_input_order c3fetch c3urls [2, 0, 1] (by decide)

/-- C4: a fetched search-results page containing a known block-page
phrase makes the Google adapter reject with the distinct `blocked`
failure, whatever the link extraction would find; and the adapter can
never return an empty successful result. -/
theorem google_blocked_rejects (html : Str) (parseUrls : Str → List Str)
    (h : containsStr html googleBlockedPhrase1 = true ∨
      containsStr html googleBlockedPhrase2 = true) :
    getGoogleResults (some html) parseUrls = .error .blocked
    ∧ ∀ fetched p res, getGoogleResults fetched p = .ok res → res ≠ [] := by
  constructor
  · rw [getGoogleResults]
    rcases h with h | h <;> rw [h] <;> simp
  · intro fetched p res hok
    cases fetched with
    | none => simp [getGoogleResults] at hok
    | some page =>
      simp only [getGoogleResults] at hok
      split at hok
      · simp at hok
      · split at hok
        · simp at hok
        · rename_i hlen
          have hres : (jsSetDedup [] (p page)).take 3 = res :=
            Except.ok.inj hok
          intro hnil
          apply hlen
          rw [hres, hnil]
          rfl

/-- A raw page embedding the second block-page phrase, for the C4
witness. -/
def c4html : Str := "aa ".data ++ (googleBlockedPhrase2 ++ " bb".data)

/-- Witness for C4 at the concrete blocked page `c4html`. -/
theorem google_blocked_rejects_witness :
    getGoogleResults (some c4html) (fun _ => ["https://a.xx".data])
        = .error .blocked
    ∧ ∀ fetched p res, getGoogleResults fetched p = .ok res → res ≠ [] :=
  google_blocked_rejects c4html (fun _ => ["https://a.xx".data])
    (Or.inr (containsStr_of_append_right "aa ".data googleBlockedPhrase2
      " bb".data))

/-- A fetched document carrying a canonical link, for C5. -/
def c5doc : HtmlDoc :=
  ⟨"T".data, "B".data, some "https://canonical.example/page".data⟩

/-- A world in which every adapter fails (unused on the direct-URL
path), for C5. -/
def c5world : SearchWorld := ⟨[], none, fun _ => [], none, none⟩

/-- C5 counterexample: the fetched document carries a canonical link,
yet the pipeline record's `url` is the fetched URL, not the canonical
one — `{ ...data, url }` at line 189 overwrites the extractor's value. -/
theorem pipeline_url_not_canonical :
    scrape c5world (fun _ => some c5doc) "example.com".data
      = [{ title := "T".data, content := "B".data,
           url := "https://example.com".data }]
    ∧ c5doc.canonicalHref = some "https://canonical.example/page".data
    ∧ "https://example.com".data ≠ "https://canonical.example/page".data :=
  ⟨by decide, rfl, by decide⟩

/-- C5 amended: the extractor alone returns the canonical href (empty
string when undetected) in its `url` field, but `scrape` overwrites it —
every record the pipeline emits has the URL it was fetched from, an
element of the candidate list. -/
theorem record_url_is_fetched_url (doc : HtmlDoc)
    (f : Str → Option HtmlDoc) (urls : List Str) :
    (extractDataFromHtml doc).url = doc.canonicalHref.getD []
    ∧ (∀ u r, fetchTask f u = some r → r.url = u)
    ∧ (∀ r ∈ fetchStage f urls, r.url ∈ urls) := by
  refine ⟨rfl, fun u r h => fetchTask_url h, ?_⟩
  intro r hr
  have hm : r.url ∈ (fetchStage f urls).map (fun r => r.url) :=
    List.mem_map_of_mem _ hr
  rw [fetchStage_map_url] at hm
  exact List.mem_of_mem_filter hm

/-- Witness for the amended C5 at a concrete fetched URL. -/
theorem record_url_is_fetched_url_witness :
    ({ extractDataFromHtml c5doc with
        url := "https://a.xx".data } : ScrapedData).url
      = "https://a.xx".data :=
  (record_url_is_fetched_url c5doc (fun _ => some c5doc) []).2.1
    "https://a.xx".data
    { extractDataFromHtml c5doc with url := "https://a.xx".data } rfl

/-- The Wikipedia OpenSearch request URL built at lines 299–301. -/
def wikipediaSearchUrl (query : Str) : Str :=
  "https://en.wikipedia.org/w/api.php?action=opensearch&search=".data
    ++ encodeURIComponent query ++ wikipediaSearchUrlSuffix

theorem getSearXResults_le3 (resps : List (Option SearxResponse))
    (r : List Str) (h : getSearXResults resps = some r) : r.length ≤ 3 := by
  induction resps with
  | nil => simp [getSearXResults] at h
  | cons o rest ih =>
    cases o with
    | none =>
      rw [getSearXResults] at h
      exact ih h
    | some resp =>
      rw [getSearXResults] at h
      split at h
      · exact ih h
      · cases hres : resp.results with
        | none =>
          rw [hres] at h
          exact ih h
        | some rs =>
          rw [hres] at h
          simp only at h
          split at h
          · have : (searxCollect rs).take 3 = r := Option.some.inj h
            rw [← this]
            exact List.length_take_le 3 (searxCollect rs)
          · exact ih h

theorem getGoogleResults_le3 (fetched : Option Str) (p : Str → List Str)
    (r : List Str) (h : getGoogleResults fetched p = .ok r) :
    r.length ≤ 3 := by
  cases fetched with
  | none => simp [getGoogleResults] at h
  | some page =>
    simp only [getGoogleResults] at h
    split at h
    · simp at h
    · split at h
      · simp at h
      · have : (jsSetDedup [] (p page)).take 3 = r := Except.ok.inj h
        rw [← this]
        exact List.length_take_le 3 _

theorem ddgUrls0_le1 (d : DdgData) : (ddgUrls0 d).length ≤ 1 := by
  rw [ddgUrls0]
  split <;> simp

theorem ddgUrls1_le3 (d : DdgData) : (ddgUrls1 d).length ≤ 3 := by
  rw [ddgUrls1]
  cases d.relatedTopics with
  | none => exact Nat.le_trans (ddgUrls0_le1 d) (by omega)
  | some topics =>
    rw [List.length_append, List.length_map]
    have h2 : ((topics.take 2).filter
        (fun t => t.firstUrl ≠ [])).length ≤ 2 :=
      Nat.le_trans (List.length_filter_le _ _) (List.length_take_le 2 topics)
    have h0 := ddgUrls0_le1 d
    omega

theorem ddgUrls_le3 (d : DdgData) : (ddgUrls d).length ≤ 3 := by
  rw [ddgUrls]
  split
  · rename_i hcond
    rw [List.length_append]
    have hz := (Bool.and_eq_true _ _).mp hcond
    have h0 : (ddgUrls1 d).length = 0 := by simpa using hz.1
    simp [h0]
  · exact ddgUrls1_le3 d

theorem getDuckDuckGoResults_le3 (resp : Option DdgResponse)
    (r : List Str) (h : getDuckDuckGoResults resp = .ok r) :
    r.length ≤ 3 := by
  cases resp with
  | none => simp [getDuckDuckGoResults] at h
  | some rr =>
    simp only [getDuckDuckGoResults] at h
    split at h
    · simp at h
    · split at h
      · simp at h
      · split at h
        · simp at h
        · have : ddgUrls rr.data = r := Except.ok.inj h
          rw [← this]
          exact ddgUrls_le3 rr.data

/-- Six https URLs in one Wikipedia response body. -/
def wikiSixUrls : List Str :=
  ["https://w1.example".data, "https://w2.example".data,
   "https://w3.example".data, "https://w4.example".data,
   "https://w5.example".data, "https://w6.example".data]

/-- C8 counterexample: the Wikipedia adapter applies no client-side
cap — a response carrying six `https://` URLs is returned whole, six
entries, beyond both the claimed Wikipedia cap of 3 and the overall
bound of 5. -/
theorem adapter_caps_counterexample :
    getWikipediaResults (some ⟨true, some wikiSixUrls⟩) = some wikiSixUrls
    ∧ wikiSixUrls.length = 6 :=
  ⟨by decide, rfl⟩

/-- C8 amended: the SearX, Google and DuckDuckGo adapters cap their
successful candidate lists at three entries client-side; the Wikipedia
adapter only asks the server for at most three (its request URL ends in
the `limit=3` parameter block) and returns the response's `https://`
entries uncapped. -/
theorem adapter_caps :
    (∀ resps r, getSearXResults resps = some r → r.length ≤ 3)
    ∧ (∀ fetched p r, getGoogleResults fetched p = .ok r → r.length ≤ 3)
    ∧ (∀ resp r, getDuckDuckGoResults resp = .ok r → r.length ≤ 3)
    ∧ (∀ q, ∃ pre, wikipediaSearchUrl q = pre ++ wikipediaSearchUrlSuffix) :=
  ⟨getSearXResults_le3, getGoogleResults_le3, getDuckDuckGoResults_le3,
   fun q =>
    ⟨"https://en.wikipedia.org/w/api.php?action=opensearch&search=".data
        ++ encodeURIComponent q,
     by rw [wikipediaSearchUrl, List.append_assoc]⟩⟩

/-- Witness for the amended C8: a concrete Google success is capped. -/
theorem adapter_caps_witness :
    (["https://a.example".data] : List Str).length ≤ 3 :=
  adapter_caps.2.1 (some "plain results page".data)
    (fun _ => ["https://a.example".data]) ["https://a.example".data]
    rfl

theorem emergencyWikiUrl_https (q : Str) :
    startsWith (emergencyWikiUrl q) httpsPref = true := by
  rw [emergencyWikiUrl]
  exact startsWith_of_startsWith_append httpsPref _ (by decide)

theorem emergencyCandidates_https (q : Str) :
    ∀ u ∈ emergencyCandidates q, startsWith u httpsPref = true := by
  intro u hu
  rw [emergencyCandidates] at hu
  split at hu
  · simp only [List.mem_append, List.mem_singleton] at hu
    rcases hu with (hw | hmid) | hr
    · rw [hw]
      exact emergencyWikiUrl_https q
    · split at hmid
      · simp only [List.mem_cons, List.mem_singleton, List.not_mem_nil,
          or_false] at hmid
        rcases hmid with hc | ho
        · rw [hc]
          exact startsWith_append_self httpsPref _
        · rw [ho]
          exact startsWith_of_startsWith_append httpsPref _ (by decide)
      · simp at hmid
    · rw [hr]
      exact startsWith_of_startsWith_append httpsPref _ (by decide)
  · simp at hu

/-- C9: the emergency constructor is a total pure function — no network
call, no failure — and on every nonempty query it returns a nonempty
candidate list, each entry beginning with `https://`, built from the
query's lower-cased alphanumeric-filtered tokens of length above 2. -/
theorem emergency_nonempty_https (q : Str) (hq : q ≠ []) :
    getEmergencyResults q ≠ []
    ∧ ∀ u ∈ getEmergencyResults q, startsWith u httpsPref = true := by
  rw [getEmergencyResults]
  split
  · rename_i hlen
    constructor
    · intro hnil
      have hlt := congrArg List.length hnil
      simp only [List.length_take, List.length_nil] at hlt
      omega
    · intro u hu
      exact emergencyCandidates_https q u (List.mem_of_mem_take hu)
  · constructor
    · simp
    · intro u hu
      simp only [List.mem_singleton] at hu
      rw [hu]
      exact emergencyWikiUrl_https q

/-- Witness for C9 at the concrete query `"giraffe height facts"`. -/
theorem emergency_nonempty_https_witness :
    getEmergencyResults "giraffe height facts".data ≠ []
    ∧ ∀ u ∈ getEmergencyResults "giraffe height facts".data,
        startsWith u httpsPref = true :=
  emergency_nonempty_https "giraffe height facts".data (by decide)
